import Mathlib

/-!
Verification of the covid-cli-service storage and import engine.

This file gives a shallow embedding of the Go sources (package lib:
database.go; package ecdc: importer) and proves the specified
properties about it.  Conventions of the embedding:

* SQL tables become Lean lists of rows; `AUTOINCREMENT` surrogate ids
  become an explicit `nextId` counter threaded through the state.
* `time.Time` values become `Int` seconds since the Unix epoch; the
  model fixes the process-local timezone (Go `time.Local`) to UTC, so
  `time.Date(y, m, d, 0, 0, 0, 0, time.Local)` becomes
  `86400 * daysFromCivil y m d` and the epoch sentinel
  `time.Unix(0, 0)` becomes `0`.
* `float64` values become `Rat`; `strconv.ParseFloat` is modelled on
  finite decimal literals (optional sign, fraction and exponent),
  which covers every value the data feed carries.
* Fallible Go calls return `Except DbError`; the pure model carries no
  environmental faults (I/O errors), so the modelled failure modes are
  number-parse failures and primary-key conflicts.
* Go string length is byte length and `strings.ToUpper` is
  Unicode-aware; the model uses character length and ASCII
  uppercasing, which agree with Go on all ASCII inputs (country
  codes, geo ids and the names carried by the feed).
-/

namespace Covid

/-- Error taxonomy of the pure model: number-parse failures
(`strconv.ParseUint` / `strconv.ParseFloat`) and primary-key
uniqueness conflicts on batch insert. -/
inductive DbError where
  | parseFailure : DbError
  | conflict : DbError
deriving DecidableEq

/-- Row of the `Countries` table (Go struct `lib.Country`). -/
structure Country where
  id : Int
  code : String
  geoID : String
  name : String
  population : Int
  continent : String
deriving DecidableEq

/-- Row of the `Cases` table; primary key is `(date, countryId)`. -/
structure CaseFact where
  date : Int
  countryId : Int
  cases : Int
  deaths : Int
  cumulative : Rat
deriving DecidableEq

/-- Go struct `lib.CovidStatisticsRecord` (a staged or retrieved fact
together with its resolved country row). -/
structure CovidStatisticsRecord where
  date : Int
  cases : Int
  deaths : Int
  cumulative : Rat
  country : Country
deriving DecidableEq

/-- Go struct `lib.CovidStatisticsRecordResult`: either a record or a
row-level error, as streamed over the result channel. -/
inductive CovidStatisticsRecordResult where
  | result : CovidStatisticsRecord → CovidStatisticsRecordResult
  | error : DbError → CovidStatisticsRecordResult
deriving DecidableEq

/-- The persistent store: the two tables created by `NewDatabase`,
plus the `AUTOINCREMENT` counter of the `Countries` table. -/
structure DB where
  countries : List Country
  cases : List CaseFact
  nextId : Int
deriving DecidableEq

/-- Go enum `lib.CountryQueryType`. -/
inductive CountryQueryType where
  | byID : CountryQueryType
  | byGeoID : CountryQueryType
  | byName : CountryQueryType
deriving DecidableEq

/-- Go struct `lib.CountryQuery`. -/
structure CountryQuery where
  queryType : CountryQueryType
  query : String
deriving DecidableEq

/-! ### Dates (`time.Date`, `normalizeDate`, `time.Unix`) -/

/-- Days from 1970-01-01 of the civil date `(y, m, d)` for
`m ∈ [1, 12]` (`d` may be out of range and extends linearly, exactly
as Go `time.Date` normalizes it). Standard civil-from-days algorithm. -/
def daysFromCivil (y m d : Int) : Int :=
  let yAdj : Int := if m ≤ 2 then y - 1 else y
  let era : Int := (if 0 ≤ yAdj then yAdj else yAdj - 399).ediv 400
  let yoe : Int := yAdj - era * 400
  let mp : Int := (m + 9).emod 12
  let doy : Int := (153 * mp + 2).ediv 5 + d - 1
  let doe : Int := yoe * 365 + yoe.ediv 4 - yoe.ediv 100 + doy
  era * 146097 + doe - 719468

/-- Go `time.Date` first normalizes the month into the year
(floored division), months outside `[1, 12]` roll the year. -/
def goNormMonth (year month : Int) : Int × Int :=
  ((year + (month - 1).ediv 12), ((month - 1).emod 12 + 1))

/-- Seconds since the epoch of local (UTC in this model) midnight of
the given civil date: the model of
`time.Date(year, month, day, 0, 0, 0, 0, time.Local).Unix()`. -/
def mkDateSeconds (year month day : Int) : Int :=
  86400 * daysFromCivil (goNormMonth year month).1 (goNormMonth year month).2 day

/-- Model of `normalizeDate`: drop the time of day, keeping local
midnight (floor to a day boundary). -/
def normalizeDate (timestamp : Int) : Int :=
  86400 * timestamp.ediv 86400

/-! ### Number parsing (`strconv`) -/

/-- Numeric value of a digit string. -/
def digitsToNat (cs : List Char) : Nat :=
  cs.foldl (fun a c => a * 10 + (c.toNat - 48)) 0

/-- Model of `strconv.ParseUint(s, 10, 32)`: a non-empty all-digit
string whose value fits in 32 bits. -/
def parseUint32 (s : String) : Option Nat :=
  let cs := s.toList
  if cs ≠ [] ∧ cs.all (fun c => c.isDigit) then
    let v := digitsToNat cs
    if v < 2 ^ 32 then some v else none
  else none

/-- Mantissa of a decimal literal: digits with an optional single
decimal point, at least one digit in total. -/
def parseMantissa? (cs : List Char) : Option Rat :=
  match cs.splitOn (Char.ofNat 46) with
  | [ipart] =>
    if ipart ≠ [] ∧ ipart.all (fun c => c.isDigit) then
      some (digitsToNat ipart)
    else none
  | [ipart, fpart] =>
    if (ipart ≠ [] ∨ fpart ≠ []) ∧ ipart.all (fun c => c.isDigit) ∧
        fpart.all (fun c => c.isDigit) then
      some ((digitsToNat ipart : Rat) +
        (digitsToNat fpart : Rat) / (10 : Rat) ^ fpart.length)
    else none
  | _ => none

/-- Strip one optional leading sign, returning `true` for minus. -/
def stripSign (cs : List Char) : Bool × List Char :=
  match cs with
  | c :: rest =>
    if c = Char.ofNat 45 then (true, rest)
    else if c = Char.ofNat 43 then (false, rest)
    else (false, cs)
  | [] => (false, [])

/-- Model of `strconv.ParseFloat(s, 64)` on finite decimal literals:
optional sign, decimal mantissa, optional decimal exponent.  (Go also
accepts hexadecimal floats and inf/nan spellings, which the data feed
never carries; the model rejects them.)  The value is kept exact as a
rational instead of rounding to binary floating point. -/
def parseFloat? (s : String) : Option Rat :=
  match stripSign s.toList with
  | (neg, body) =>
    let signed : Rat → Rat := fun v => if neg then -v else v
    match (body.map Char.toLower).splitOn (Char.ofNat 101) with
    | [mant] =>
      match parseMantissa? mant with
      | some v => some (signed v)
      | none => none
    | [mant, expPart] =>
      match parseMantissa? mant, stripSign expPart with
      | some v, (eneg, edigits) =>
        if edigits ≠ [] ∧ edigits.all (fun c => c.isDigit) then
          if eneg then some (signed (v / (10 : Rat) ^ digitsToNat edigits))
          else some (signed (v * (10 : Rat) ^ digitsToNat edigits))
        else none
      | none, _ => none
    | _ => none

/-! ### Source records (`ecdc.Record`) -/

/-- Go struct `ecdc.Record`: one loosely-typed row of the feed. -/
structure Record where
  day : String
  month : String
  year : String
  cases : Int
  deaths : Int
  countryName : String
  geoID : String
  countryCode : String
  population : Int
  continent : String
  cumulativeCases : String
deriving DecidableEq

/-- Model of `Record.Timestamp`: parse the day, month and year fields
as 32-bit unsigned decimal numbers and build the local-midnight date;
any parse failure aborts. -/
def Record.timestamp (record : Record) : Except DbError Int :=
  match parseUint32 record.day, parseUint32 record.month,
      parseUint32 record.year with
  | some day, some month, some year =>
    .ok (mkDateSeconds (year : Int) (month : Int) (day : Int))
  | _, _, _ => .error .parseFailure

/-- The parsed date of a record (meaningful when `timestamp` succeeds). -/
def recordDate (record : Record) : Int :=
  match record.timestamp with
  | .ok t => t
  | .error _ => 0

/-- Model of the cumulative-incidence handling in
`ecdcImporter.Import`: an empty string stays at the default `0`, a
non-empty string must parse as a real number. -/
def Record.cumulative? (record : Record) : Except DbError Rat :=
  if 0 < record.cumulativeCases.length then
    match parseFloat? record.cumulativeCases with
    | some v => .ok v
    | none => .error .parseFailure
  else .ok 0

/-- A record every field of which parses: its date fields are numbers
and its cumulative-incidence field is empty or numeric. -/
def ValidRecord (record : Record) : Prop :=
  record.timestamp.isOk = true ∧ (Record.cumulative? record).isOk = true

instance : DecidablePred ValidRecord := fun record => by
  unfold ValidRecord; infer_instance

/-- A valid record's timestamp is exactly its parsed date. -/
theorem timestamp_of_valid {record : Record} (h : ValidRecord record) :
    record.timestamp = .ok (recordDate record) := by
  rcases h with ⟨h1, _⟩
  unfold recordDate
  cases hts : record.timestamp with
  | ok t => rfl
  | error e => rw [hts] at h1; simp [Except.isOk, Except.toBool] at h1

/-! ### The store (`lib.Database`) -/

/-- `ORDER BY Id DESC LIMIT 1` over a filtered row list: the row with
the greatest surrogate id, scanned left to right. -/
def pickLatest (rows : List Country) : Option Country :=
  rows.foldl
    (fun acc c =>
      match acc with
      | none => some c
      | some b => if b.id < c.id then some c else some b)
    none

/-- Model of `Database.Country` (named `currentCountry` here because
`DB.Country` would shadow the row type inside the `DB` namespace):
the most recent (highest surrogate id) version of the country with
the given code, if any. -/
def DB.currentCountry (db : DB) (code : String) : Option Country :=
  pickLatest (db.countries.filter (fun c => c.code = code))

/-- Model of `Database.CountryByID` (the read-through cache is
semantically transparent because dimension rows are immutable). -/
def DB.CountryByID (db : DB) (id : Int) : Option Country :=
  db.countries.find? (fun c => c.id = id)

/-- Model of `Database.PutCountry`: fetch the current version of the
code; insert a brand-new row if none exists or any of the four
mutable attributes differs, otherwise return the current row with no
write. -/
def DB.PutCountry (db : DB) (code : String) (geoID : String)
    (name : String) (population : Int) (continent : String) :
    Country × DB :=
  let fresh : Country :=
    { id := db.nextId, code := code, geoID := geoID, name := name
      population := population, continent := continent }
  let inserted : DB :=
    { db with countries := db.countries ++ [fresh], nextId := db.nextId + 1 }
  match db.currentCountry code with
  | some currentRevision =>
    if currentRevision.geoID ≠ geoID ∨ currentRevision.name ≠ name ∨
        currentRevision.population ≠ population ∨
        currentRevision.continent ≠ continent then
      (fresh, inserted)
    else
      (currentRevision, db)
  | none => (fresh, inserted)

/-- The dates produced by the `Cases ⋈ Countries` join restricted to
one country code (the row source of `Database.LastRecordDate`). -/
def DB.codeDates (db : DB) (countryCode : String) : List Int :=
  db.cases.flatMap (fun f =>
    db.countries.filterMap (fun c =>
      if c.id = f.countryId ∧ c.code = countryCode then some f.date
      else none))

/-- Model of `Database.LastRecordDate`: the greatest recorded date
for the code across all its versions, or the epoch sentinel `0`. -/
def DB.LastRecordDate (db : DB) (countryCode : String) : Int :=
  match db.codeDates countryCode with
  | [] => 0
  | d :: ds => ds.foldl max d

/-- One `INSERT INTO Cases` statement: fails iff the `(date,
countryId)` primary key collides with a row already present. -/
def insertFact (rows : List CaseFact) (f : CaseFact) :
    Except DbError (List CaseFact) :=
  if rows.any (fun g => g.date = f.date ∧ g.countryId = f.countryId) then
    .error .conflict
  else .ok (rows ++ [f])

/-- The `Cases` row staged by `ImportRecords` for one statistics
record (`CountryId, normalizeDate(Date).Unix(), Cases, Deaths,
Cumulative`). -/
def toFact (record : CovidStatisticsRecord) : CaseFact :=
  { date := normalizeDate record.date, countryId := record.country.id,
    cases := record.cases, deaths := record.deaths,
    cumulative := record.cumulative }

/-- The insert loop of `ImportRecords`, acting on the transaction's
view of the `Cases` table. -/
def insertFactsLoop (rows : List CaseFact) :
    List CovidStatisticsRecord → Except DbError (List CaseFact)
  | [] => .ok rows
  | record :: rest =>
    match insertFact rows (toFact record) with
    | .error e => .error e
    | .ok rows' => insertFactsLoop rows' rest

/-- Model of `Database.ImportRecords`: insert the whole batch inside
one transaction; commit on success, roll back (state unchanged) on
the first failing insert, propagating the error. -/
def DB.ImportRecords (db : DB) (records : List CovidStatisticsRecord) :
    Except DbError Unit × DB :=
  match insertFactsLoop db.cases records with
  | .error e => (.error e, db)
  | .ok rows => (.ok (), { db with cases := rows })

/-! ### The importer (`ecdc.ecdcImporter`) -/

/-- The importer's per-call memo of last-known record dates
(Go `map[string]time.Time`, modelled as an association list). -/
abbrev Cache := List (String × Int)

/-- Go map lookup on the association list. -/
def cacheFind : Cache → String → Option Int
  | [], _ => none
  | p :: rest, code => if p.1 = code then some p.2 else cacheFind rest code

/-- Model of `ecdcImporter.lastRecordTime`: consult the memo, on a
miss query `LastRecordDate` once and remember the answer. -/
def lastRecordTime (db : DB) (cache : Cache) (countryCode : String) :
    Int × Cache :=
  match cacheFind cache countryCode with
  | some t => (t, cache)
  | none =>
    (db.LastRecordDate countryCode,
      (countryCode, db.LastRecordDate countryCode) :: cache)

/-- The record loop of `ecdcImporter.Import`: for each source record,
look up the memoized watermark, parse the date and the cumulative
field (either failure aborts), skip the record unless its date is
strictly after the watermark, otherwise resolve the country (possibly
minting a new version) and stage a fact.  Returns the staged facts in
source order together with the store as mutated by `PutCountry`. -/
def importLoop (db : DB) (cache : Cache) :
    List Record → Except DbError (Cache × List CovidStatisticsRecord) × DB
  | [] => (.ok (cache, []), db)
  | record :: rest =>
    let lr := lastRecordTime db cache record.countryCode
    match record.timestamp with
    | .error e => (.error e, db)
    | .ok ts =>
      match record.cumulative? with
      | .error e => (.error e, db)
      | .ok cumulative =>
        if lr.1 < ts then
          let pc := db.PutCountry record.countryCode record.geoID
            record.countryName record.population record.continent
          match importLoop pc.2 lr.2 rest with
          | (.ok (cache', staged), db') =>
            (.ok (cache',
              { date := ts, cases := record.cases, deaths := record.deaths,
                cumulative := cumulative, country := pc.1 } :: staged), db')
          | (.error e, db') => (.error e, db')
        else
          importLoop db lr.2 rest

/-- Model of `DataSource.Import` / `ecdcImporter.Import`: run the
record loop with a fresh memo, then submit the staged facts as one
atomic batch. -/
def ecdcImport (db : DB) (records : List Record) :
    Except DbError Unit × DB :=
  match importLoop db [] records with
  | (.error e, db') => (.error e, db')
  | (.ok (_, staged), db') => db'.ImportRecords staged

/-! ### The query engine -/

/-- The column chosen by the `switch` in `RetrieveRecordsSince`:
geo-id and name queries use their columns, everything else (including
`CountryQueryByID`) falls through to `Countries.Code`. -/
inductive LookupField where
  | code : LookupField
  | geoId : LookupField
  | nameField : LookupField
deriving DecidableEq

/-- The `switch query.QueryType` of `RetrieveRecordsSince`. -/
def queryColumn : CountryQueryType → LookupField
  | CountryQueryType.byGeoID => LookupField.geoId
  | CountryQueryType.byName => LookupField.nameField
  | _ => LookupField.code

/-- SQLite `NOCASE` equality: the `Name` column is declared
`COLLATE NOCASE`, which folds the 26 ASCII letters. -/
def nocaseEq (a b : String) : Prop :=
  a.toList.map Char.toLower = b.toList.map Char.toLower

instance : ∀ a b, Decidable (nocaseEq a b) := fun a b => by
  unfold nocaseEq; infer_instance

/-- The `WHERE %s = ?` predicate of `RetrieveRecordsSince` on a
country row; the name column compares under `NOCASE`. -/
def matchesQuery (q : CountryQuery) (c : Country) : Prop :=
  match queryColumn q.queryType with
  | LookupField.code => c.code = q.query
  | LookupField.geoId => c.geoID = q.query
  | LookupField.nameField => nocaseEq c.name q.query

instance : ∀ q c, Decidable (matchesQuery q c) := fun q c => by
  unfold matchesQuery
  cases queryColumn q.queryType <;> infer_instance

/-- The unordered row set of the query join:
`Cases ⋈ Countries ON CountryId = Id WHERE column = ? AND Date >= ?`,
each row paired with its (cache-resolved) country. -/
def DB.matchingRows (db : DB) (q : CountryQuery) (sinceDate : Int) :
    List CovidStatisticsRecord :=
  db.cases.flatMap (fun f =>
    db.countries.filterMap (fun c =>
      if c.id = f.countryId ∧ matchesQuery q c ∧ sinceDate ≤ f.date then
        some { date := f.date, cases := f.cases, deaths := f.deaths,
               cumulative := f.cumulative, country := c }
      else none))

/-- `ORDER BY Date ASC` ordering on retrieved records. -/
def dateLE (a b : CovidStatisticsRecord) : Prop := a.date ≤ b.date

instance : DecidableRel dateLE := fun a b => by
  unfold dateLE; infer_instance

instance : IsTotal CovidStatisticsRecord dateLE :=
  ⟨fun a b => Int.le_total a.date b.date⟩

instance : IsTrans CovidStatisticsRecord dateLE :=
  ⟨fun _ _ _ hab hbc => le_trans hab hbc⟩

/-- The producer goroutine of `RetrieveRecordsSince`: emit each row
in order; on a row-level failure emit one error element and stop. -/
def streamLoop :
    List (Except DbError CovidStatisticsRecord) →
    List CovidStatisticsRecordResult
  | [] => []
  | .error e :: _ => [CovidStatisticsRecordResult.error e]
  | .ok r :: rest => CovidStatisticsRecordResult.result r :: streamLoop rest

/-- The ordered row sequence of the query (`ORDER BY Date ASC`). -/
def DB.retrieveRows (db : DB) (q : CountryQuery) (since : Int) :
    List CovidStatisticsRecord :=
  List.insertionSort dateLE (db.matchingRows q (normalizeDate since))

/-- Model of `Database.RetrieveRecordsSince`: the stream of results
produced over the channel, in the fault-free denotation (each scan
succeeds). -/
def DB.RetrieveRecordsSince (db : DB) (q : CountryQuery) (since : Int) :
    List CovidStatisticsRecordResult :=
  streamLoop ((db.retrieveRows q since).map Except.ok)

/-- Model of `Database.RetrieveRecords`: query since the epoch. -/
def DB.RetrieveRecords (db : DB) (q : CountryQuery) :
    List CovidStatisticsRecordResult :=
  db.RetrieveRecordsSince q 0

/-- Model of `strings.ToUpper` (character-wise uppercasing; ASCII in
this model, which agrees with Go on ASCII input). -/
def goToUpper (s : String) : String :=
  String.mk (s.data.map Char.toUpper)

/-- Model of `lib.NewQuery`: infer the lookup kind from the shape of
the query string. -/
def NewQuery (query : String) : CountryQuery :=
  if query.length = 2 ∧ goToUpper query = query then
    { queryType := CountryQueryType.byGeoID, query := query }
  else if query.length = 3 ∧ goToUpper query = query then
    { queryType := CountryQueryType.byID, query := query }
  else
    { queryType := CountryQueryType.byName, query := query }

/-! ### Store well-formedness

Invariants every reachable store satisfies: surrogate ids are unique
and below the autoincrement counter, and every fact references an
existing country row. -/

/-- Well-formedness of a store state. -/
def DB.WF (db : DB) : Prop :=
  (∀ c ∈ db.countries, c.id < db.nextId) ∧
  db.countries.Pairwise (fun a b => a.id ≠ b.id) ∧
  (∀ f ∈ db.cases, ∃ c ∈ db.countries, c.id = f.countryId)

instance : DecidablePred DB.WF := fun db => by
  unfold DB.WF; infer_instance

instance {ε α : Type} [DecidableEq ε] [DecidableEq α] :
    DecidableEq (Except ε α) := fun a b =>
  match a, b with
  | .ok x, .ok y =>
    if h : x = y then isTrue (by rw [h]) else isFalse (by simp [h])
  | .ok _, .error _ => isFalse (by simp)
  | .error _, .ok _ => isFalse (by simp)
  | .error x, .error y =>
    if h : x = y then isTrue (by rw [h]) else isFalse (by simp [h])

/-- The declarative conflict condition of a batch insert: scanning
the staged records left to right over the current table contents,
some staged row's `(date, countryId)` key collides with an existing
or earlier-staged row. -/
def BatchConflict (rows : List CaseFact) :
    List CovidStatisticsRecord → Prop
  | [] => False
  | record :: rest =>
    (∃ g ∈ rows, g.date = (toFact record).date ∧
      g.countryId = (toFact record).countryId) ∨
    BatchConflict (rows ++ [toFact record]) rest

/-- One step of the `ORDER BY Id DESC LIMIT 1` scan. -/
def pickStep (acc : Option Country) (c : Country) : Option Country :=
  match acc with
  | none => some c
  | some b => if b.id < c.id then some c else some b

/-- Soundness of the importer's memo against a store: every cached
entry holds the store's last record date for its code. -/
def CacheOK (db : DB) (cache : Cache) : Prop :=
  ∀ p ∈ cache, p.2 = db.LastRecordDate p.1

/-- The incremental-import filter: a record is admitted exactly when
its parsed date is strictly after the last known fact date of its
country code. -/
def Admits (db : DB) (record : Record) : Prop :=
  db.LastRecordDate record.countryCode < recordDate record

instance : ∀ db record, Decidable (Admits db record) := fun db record => by
  unfold Admits; infer_instance

/-! ### Basic lemmas -/

theorem insertFactsLoop_spec :
    ∀ (records : List CovidStatisticsRecord) (rows : List CaseFact),
      (insertFactsLoop rows records = .ok (rows ++ records.map toFact) ∧
        ¬ BatchConflict rows records) ∨
      (insertFactsLoop rows records = .error .conflict ∧
        BatchConflict rows records) := by
  intro records
  induction records with
  | nil =>
    intro rows
    left
    simp [insertFactsLoop, BatchConflict]
  | cons record rest ih =>
    intro rows
    by_cases hc : ∃ g ∈ rows, g.date = (toFact record).date ∧
        g.countryId = (toFact record).countryId
    · right
      constructor
      · simp only [insertFactsLoop, insertFact]
        rw [if_pos]
        simp only [List.any_eq_true, decide_eq_true_eq]
        exact hc
      · exact Or.inl hc
    · have hstep : insertFact rows (toFact record) =
          .ok (rows ++ [toFact record]) := by
        simp only [insertFact]
        rw [if_neg]
        simp only [List.any_eq_true, decide_eq_true_eq]
        exact hc
      rcases ih (rows ++ [toFact record]) with ⟨hok, hnc⟩ | ⟨herr, hcf⟩
      · left
        constructor
        · simp only [insertFactsLoop, hstep, List.map_cons]
          rw [hok]
          simp
        · intro h
          rcases h with h | h
          · exact hc h
          · exact hnc h
      · right
        constructor
        · simp only [insertFactsLoop, hstep]
          exact herr
        · exact Or.inr hcf

/-- C2 — Import batch atomicity: the batch insert of `ImportRecords`
either appends every staged fact to the `Cases` table (leaving
`Countries` untouched) or, when any insert in the batch fails — which
in the pure model happens exactly on a `(date, country-version)`
uniqueness collision — rolls the transaction back, propagates the
conflict error to the caller, and leaves the store completely
unchanged. -/
theorem import_batch_atomic (db : DB) (records : List CovidStatisticsRecord) :
    ((db.ImportRecords records).1 = .ok () →
      (db.ImportRecords records).2.countries = db.countries ∧
      (db.ImportRecords records).2.cases = db.cases ++ records.map toFact) ∧
    (∀ e, (db.ImportRecords records).1 = .error e →
      (db.ImportRecords records).2 = db ∧ e = DbError.conflict) ∧
    ((∃ e, (db.ImportRecords records).1 = .error e) ↔
      BatchConflict db.cases records) := by
  rcases insertFactsLoop_spec records db.cases with ⟨hok, hnc⟩ | ⟨herr, hcf⟩
  · refine ⟨?_, ?_, ?_⟩
    · intro _
      simp [DB.ImportRecords, hok]
    · intro e he
      simp [DB.ImportRecords, hok] at he
    · constructor
      · rintro ⟨e, he⟩
        simp [DB.ImportRecords, hok] at he
      · intro h
        exact absurd h hnc
  · refine ⟨?_, ?_, ?_⟩
    · intro h
      simp [DB.ImportRecords, herr] at h
    · intro e he
      have hfst : (db.ImportRecords records).1 = Except.error DbError.conflict := by
        simp [DB.ImportRecords, herr]
      rw [hfst] at he
      injection he with h
      constructor
      · show (db.ImportRecords records).2 = db
        simp [DB.ImportRecords, herr]
      · exact h.symm
    · exact ⟨fun _ => hcf, fun _ => ⟨DbError.conflict, by simp [DB.ImportRecords, herr]⟩⟩

/-- Witness for C2 at concrete inputs: a fresh two-fact batch commits
both rows, and a batch whose second row repeats the first row's
`(date, countryId)` key leaves the store unchanged. -/
theorem import_batch_atomic_witness :
    ((DB.ImportRecords ⟨[⟨1, "DEU", "DE", "Germany", 83000000, "Europe"⟩], [], 2⟩
        [⟨86400, 10, 1, 0, ⟨1, "DEU", "DE", "Germany", 83000000, "Europe"⟩⟩,
         ⟨172800, 20, 2, 0, ⟨1, "DEU", "DE", "Germany", 83000000, "Europe"⟩⟩]).2.cases =
      [] ++ [⟨86400, 10, 1, 0, ⟨1, "DEU", "DE", "Germany", 83000000, "Europe"⟩⟩,
         ⟨172800, 20, 2, 0, ⟨1, "DEU", "DE", "Germany", 83000000, "Europe"⟩⟩].map toFact) ∧
    ((DB.ImportRecords ⟨[⟨1, "DEU", "DE", "Germany", 83000000, "Europe"⟩], [], 2⟩
        [⟨86400, 10, 1, 0, ⟨1, "DEU", "DE", "Germany", 83000000, "Europe"⟩⟩,
         ⟨86400, 11, 1, 0, ⟨1, "DEU", "DE", "Germany", 83000000, "Europe"⟩⟩]).2 =
      ⟨[⟨1, "DEU", "DE", "Germany", 83000000, "Europe"⟩], [], 2⟩) :=
  ⟨((import_batch_atomic _ _).1 (by decide)).2,
   ((import_batch_atomic _ _).2.1 DbError.conflict (by decide)).1⟩

/-- C8 — Terminal stream error: whenever the result stream contains
an error element, that element is the last one (nothing follows it)
and everything before it is an ordinary result row. -/
theorem stream_error_terminal
    (xs : List (Except DbError CovidStatisticsRecord))
    (l1 l2 : List CovidStatisticsRecordResult) (e : DbError)
    (h : streamLoop xs = l1 ++ CovidStatisticsRecordResult.error e :: l2) :
    l2 = [] ∧ ∀ x ∈ l1, ∃ r, x = CovidStatisticsRecordResult.result r := by
  induction xs generalizing l1 with
  | nil =>
    simp only [streamLoop] at h
    exact absurd h.symm (by simp)
  | cons x rest ih =>
    cases x with
    | error e' =>
      simp only [streamLoop] at h
      cases l1 with
      | nil =>
        simp only [List.nil_append, List.cons.injEq] at h
        exact ⟨h.2.symm, by simp⟩
      | cons a l1' =>
        simp only [List.cons_append, List.cons.injEq] at h
        exact absurd h.2.symm (by simp)
    | ok r =>
      simp only [streamLoop] at h
      cases l1 with
      | nil =>
        simp only [List.nil_append, List.cons.injEq] at h
        exact absurd h.1 (by simp)
      | cons a l1' =>
        simp only [List.cons_append, List.cons.injEq] at h
        obtain ⟨hl2, hall⟩ := ih l1' h.2
        refine ⟨hl2, ?_⟩
        intro x hx
        rcases List.mem_cons.mp hx with rfl | hx'
        · exact ⟨r, h.1.symm⟩
        · exact hall x hx'

/-- Witness for C8: a stream whose second scan fails yields exactly
one result row followed by the terminal error element. -/
theorem stream_error_terminal_witness :
    ([] : List CovidStatisticsRecordResult) = [] ∧
    ∀ x ∈ [CovidStatisticsRecordResult.result
        ⟨86400, 5, 1, 0, ⟨1, "DEU", "DE", "Germany", 83000000, "Europe"⟩⟩],
      ∃ r, x = CovidStatisticsRecordResult.result r :=
  stream_error_terminal
    [Except.ok ⟨86400, 5, 1, 0, ⟨1, "DEU", "DE", "Germany", 83000000, "Europe"⟩⟩,
     Except.error DbError.conflict,
     Except.ok ⟨172800, 6, 2, 0, ⟨1, "DEU", "DE", "Germany", 83000000, "Europe"⟩⟩]
    [CovidStatisticsRecordResult.result
      ⟨86400, 5, 1, 0, ⟨1, "DEU", "DE", "Germany", 83000000, "Europe"⟩⟩]
    [] DbError.conflict (by rfl)

/-- C5 — Lookup-kind inference: a 2-character all-uppercase query is
routed to the geo-id column, a 3-character all-uppercase query to the
country-code column (via `CountryQueryByID`, whose `switch` default
is `Countries.Code`), and anything else to the display-name column,
where matching is case-insensitive (`COLLATE NOCASE`). -/
theorem lookup_kind_inference (s : String) :
    (s.length = 2 → goToUpper s = s →
      (NewQuery s).query = s ∧
      queryColumn (NewQuery s).queryType = LookupField.geoId) ∧
    (s.length = 3 → goToUpper s = s →
      (NewQuery s).query = s ∧
      queryColumn (NewQuery s).queryType = LookupField.code) ∧
    (¬(s.length = 2 ∧ goToUpper s = s) →
      ¬(s.length = 3 ∧ goToUpper s = s) →
      (NewQuery s).query = s ∧
      queryColumn (NewQuery s).queryType = LookupField.nameField ∧
      ∀ c : Country, matchesQuery (NewQuery s) c ↔ nocaseEq c.name s) := by
  refine ⟨?_, ?_, ?_⟩
  · intro h1 h2
    unfold NewQuery
    rw [if_pos ⟨h1, h2⟩]
    exact ⟨rfl, rfl⟩
  · intro h1 h2
    unfold NewQuery
    rw [if_neg (by rintro ⟨h, _⟩; omega), if_pos ⟨h1, h2⟩]
    exact ⟨rfl, rfl⟩
  · intro h1 h2
    unfold NewQuery
    rw [if_neg h1, if_neg h2]
    exact ⟨rfl, rfl, fun c => Iff.rfl⟩

/-- Witness for C5 at the spec's own examples. -/
theorem lookup_kind_inference_witness :
    queryColumn (NewQuery ("US")).queryType = LookupField.geoId ∧
    queryColumn (NewQuery ("USA")).queryType = LookupField.code ∧
    queryColumn (NewQuery ("United States")).queryType = LookupField.nameField :=
  ⟨((lookup_kind_inference ("US")).1 (by decide) (by decide)).2,
   ((lookup_kind_inference ("USA")).2.1 (by decide) (by decide)).2,
   (((lookup_kind_inference ("United States")).2.2 (by decide) (by decide)).2.1)⟩

/-- C10 — Complete lookup routing: the all-uppercase test is equality
with the string's own uppercasing, so every 2-character string it
fixes (digits and punctuation included) routes to the geo-id column
and every such 3-character string to the code column, while every
string of any other length — all-uppercase or empty included — routes
to the case-insensitive name column. -/
theorem lookup_routing_total :
    (∀ s : String, s.length = 2 → goToUpper s = s →
      queryColumn (NewQuery s).queryType = LookupField.geoId) ∧
    (∀ s : String, s.length = 3 → goToUpper s = s →
      queryColumn (NewQuery s).queryType = LookupField.code) ∧
    (∀ s : String, s.length ≠ 2 → s.length ≠ 3 →
      queryColumn (NewQuery s).queryType = LookupField.nameField) ∧
    queryColumn (NewQuery ("12")).queryType = LookupField.geoId ∧
    queryColumn (NewQuery ("SPAIN")).queryType = LookupField.nameField ∧
    queryColumn (NewQuery ("")).queryType = LookupField.nameField := by
  refine ⟨?_, ?_, ?_, by decide, by decide, by decide⟩
  · intro s h1 h2
    unfold NewQuery
    rw [if_pos ⟨h1, h2⟩]
    rfl
  · intro s h1 h2
    unfold NewQuery
    rw [if_neg (by rintro ⟨h, _⟩; omega), if_pos ⟨h1, h2⟩]
    rfl
  · intro s h1 h2
    unfold NewQuery
    rw [if_neg (by rintro ⟨h, _⟩; omega), if_neg (by rintro ⟨h, _⟩; omega)]
    rfl

/-- Witness for C10 at fresh concrete inputs. -/
theorem lookup_routing_total_witness :
    queryColumn (NewQuery ("D1")).queryType = LookupField.geoId ∧
    queryColumn (NewQuery ("GBR")).queryType = LookupField.code ∧
    queryColumn (NewQuery ("EUROPE")).queryType = LookupField.nameField :=
  ⟨lookup_routing_total.1 ("D1") (by decide) (by decide),
   lookup_routing_total.2.1 ("GBR") (by decide) (by decide),
   lookup_routing_total.2.2.1 ("EUROPE") (by decide) (by decide)⟩

/-! ### The country dimension (`PutCountry`) -/

theorem pickLatest_eq_foldl (rows : List Country) :
    pickLatest rows = rows.foldl pickStep none := by
  unfold pickLatest pickStep
  rfl

theorem foldl_pickStep_spec :
    ∀ (rows : List Country) (acc : Option Country),
      (rows.foldl pickStep acc = none → rows = [] ∧ acc = none) ∧
      (∀ c, rows.foldl pickStep acc = some c →
        (c ∈ rows ∨ acc = some c) ∧
        (∀ b ∈ rows, b.id ≤ c.id) ∧
        (∀ b, acc = some b → b.id ≤ c.id)) := by
  intro rows
  induction rows with
  | nil =>
    intro acc
    refine ⟨fun h => ⟨rfl, h⟩, ?_⟩
    intro c hc
    simp only [List.foldl_nil] at hc
    refine ⟨Or.inr hc, by simp, ?_⟩
    intro b hb
    rw [hb] at hc
    injection hc with h
    rw [h]
  | cons r rest ih =>
    intro acc
    have hstep : (r :: rest).foldl pickStep acc =
        rest.foldl pickStep (pickStep acc r) := List.foldl_cons ..
    obtain ⟨x, hx, hxr, hxmem, hxacc⟩ :
        ∃ x, pickStep acc r = some x ∧ r.id ≤ x.id ∧
          (x = r ∨ acc = some x) ∧
          (∀ b, acc = some b → b.id ≤ x.id) := by
      cases acc with
      | none => exact ⟨r, rfl, le_refl _, Or.inl rfl, by simp⟩
      | some b =>
        by_cases hlt : b.id < r.id
        · refine ⟨r, by simp [pickStep, if_pos hlt], le_refl _, Or.inl rfl, ?_⟩
          intro b' hb'
          injection hb' with hb'
          cases hb'
          exact le_of_lt hlt
        · refine ⟨b, by simp [pickStep, if_neg hlt], le_of_not_lt hlt,
            Or.inr rfl, ?_⟩
          intro b' hb'
          injection hb' with hb'
          cases hb'
          exact le_refl _
    constructor
    · intro h
      rw [hstep, hx] at h
      exact absurd ((ih (some x)).1 h).2 (by simp)
    · intro c hc
      rw [hstep, hx] at hc
      obtain ⟨hmem, hge, hacc⟩ := (ih (some x)).2 c hc
      have hxc : x.id ≤ c.id := hacc x rfl
      refine ⟨?_, ?_, ?_⟩
      · rcases hmem with hm | hm
        · exact Or.inl (List.mem_cons_of_mem r hm)
        · injection hm with hm
          cases hm
          rcases hxmem with hr | hacc'
          · rw [hr]
            exact Or.inl (List.mem_cons_self r rest)
          · exact Or.inr hacc'
      · intro b hb
        rcases List.mem_cons.mp hb with rfl | hb'
        · exact le_trans hxr hxc
        · exact hge b hb'
      · intro b hb
        exact le_trans (hxacc b hb) hxc

theorem currentCountry_spec (db : DB) (code : String) :
    (db.currentCountry code = none →
      ∀ b ∈ db.countries, b.code ≠ code) ∧
    (∀ c, db.currentCountry code = some c →
      c ∈ db.countries ∧ c.code = code ∧
      ∀ b ∈ db.countries, b.code = code → b.id ≤ c.id) := by
  constructor
  · intro h b hb hcode
    rw [DB.currentCountry, pickLatest_eq_foldl] at h
    have := (foldl_pickStep_spec (db.countries.filter (fun c => c.code = code)) none).1 h
    have hmem : b ∈ db.countries.filter (fun c => c.code = code) := by
      rw [List.mem_filter]
      exact ⟨hb, by simp [hcode]⟩
    rw [this.1] at hmem
    simp at hmem
  · intro c hc
    rw [DB.currentCountry, pickLatest_eq_foldl] at hc
    obtain ⟨hmem, hge, _⟩ :=
      (foldl_pickStep_spec (db.countries.filter (fun c => c.code = code)) none).2 c hc
    rcases hmem with hm | hm
    · rw [List.mem_filter] at hm
      refine ⟨hm.1, by simpa using hm.2, ?_⟩
      intro b hb hcode
      exact hge b (List.mem_filter.mpr ⟨hb, by simp [hcode]⟩)
    · simp at hm

/-- Appending a row whose id dominates every stored id makes it the
current version for its code. -/
theorem currentCountry_append (db : DB) (c : Country)
    (hdom : ∀ b ∈ db.countries, b.id < c.id) :
    DB.currentCountry ⟨db.countries ++ [c], db.cases, db.nextId + 1⟩ c.code =
      some c := by
  show pickLatest ((db.countries ++ [c]).filter (fun b => b.code = c.code)) = some c
  rw [List.filter_append]
  have hc : List.filter (fun b => decide (b.code = c.code)) [c] = [c] := by simp
  rw [hc, pickLatest_eq_foldl, List.foldl_append]
  rcases hacc : (db.countries.filter (fun b => decide (b.code = c.code))).foldl
      pickStep none with _ | b
  · rw [List.foldl_cons, List.foldl_nil, hacc]
    rfl
  · obtain ⟨hmem, _, _⟩ :=
      (foldl_pickStep_spec
        (db.countries.filter (fun b => decide (b.code = c.code))) none).2 b hacc
    rcases hmem with hm | hm
    · have hb : b ∈ db.countries := (List.mem_filter.mp hm).1
      have hbc : b.id < c.id := hdom b hb
      rw [List.foldl_cons, List.foldl_nil, hacc]
      show (if b.id < c.id then some c else some b) = some c
      rw [if_pos hbc]
    · simp at hm

/-- `PutCountry` with no stored version: insert and return a fresh row. -/
theorem PutCountry_none_eq (db : DB) (code geoID nm : String)
    (population : Int) (continent : String)
    (hnone : db.currentCountry code = none) :
    db.PutCountry code geoID nm population continent =
      (⟨db.nextId, code, geoID, nm, population, continent⟩,
       ⟨db.countries ++ [⟨db.nextId, code, geoID, nm, population, continent⟩],
        db.cases, db.nextId + 1⟩) := by
  unfold DB.PutCountry
  rw [hnone]

/-- `PutCountry` with a fully matching current version: no write. -/
theorem PutCountry_same_eq (db : DB) (code geoID nm : String)
    (population : Int) (continent : String) (cur : Country)
    (hcur : db.currentCountry code = some cur)
    (hg : cur.geoID = geoID) (hn : cur.name = nm)
    (hp : cur.population = population) (hk : cur.continent = continent) :
    db.PutCountry code geoID nm population continent = (cur, db) := by
  unfold DB.PutCountry
  rw [hcur]
  simp [hg, hn, hp, hk]

/-- `PutCountry` with a differing current version: insert a new one. -/
theorem PutCountry_diff_eq (db : DB) (code geoID nm : String)
    (population : Int) (continent : String) (cur : Country)
    (hcur : db.currentCountry code = some cur)
    (hcond : cur.geoID ≠ geoID ∨ cur.name ≠ nm ∨
      cur.population ≠ population ∨ cur.continent ≠ continent) :
    db.PutCountry code geoID nm population continent =
      (⟨db.nextId, code, geoID, nm, population, continent⟩,
       ⟨db.countries ++ [⟨db.nextId, code, geoID, nm, population, continent⟩],
        db.cases, db.nextId + 1⟩) := by
  unfold DB.PutCountry
  rw [hcur]
  rcases hcond with h | h | h | h <;> simp [h]

/-- C4 — Country dimension versioning (SCD Type 2): with no stored
row for the code `PutCountry` inserts and returns a fresh row; with a
current row matching all four mutable attributes it returns that row
and writes nothing; with any attribute differing it appends a new row
with a strictly greater surrogate id and the same code, and the new
row becomes the current version for the code. -/
theorem put_country_scd2 (db : DB) (code geoID nm : String)
    (population : Int) (continent : String) (hwf : db.WF) :
    (db.currentCountry code = none →
      (db.PutCountry code geoID nm population continent).1 =
        ⟨db.nextId, code, geoID, nm, population, continent⟩ ∧
      (db.PutCountry code geoID nm population continent).2.countries =
        db.countries ++ [(db.PutCountry code geoID nm population continent).1]) ∧
    (∀ cur, db.currentCountry code = some cur →
      cur.geoID = geoID → cur.name = nm → cur.population = population →
      cur.continent = continent →
      (db.PutCountry code geoID nm population continent).1 = cur ∧
      (db.PutCountry code geoID nm population continent).2 = db) ∧
    (∀ cur, db.currentCountry code = some cur →
      ¬(cur.geoID = geoID ∧ cur.name = nm ∧ cur.population = population ∧
        cur.continent = continent) →
      cur.id < (db.PutCountry code geoID nm population continent).1.id ∧
      (db.PutCountry code geoID nm population continent).1.code = code ∧
      (db.PutCountry code geoID nm population continent).2.countries =
        db.countries ++ [(db.PutCountry code geoID nm population continent).1] ∧
      (db.PutCountry code geoID nm population continent).2.currentCountry code =
        some (db.PutCountry code geoID nm population continent).1) := by
  refine ⟨?_, ?_, ?_⟩
  · intro hnone
    rw [PutCountry_none_eq db code geoID nm population continent hnone]
    exact ⟨rfl, rfl⟩
  · intro cur hcur hg hn hp hk
    rw [PutCountry_same_eq db code geoID nm population continent cur hcur hg hn hp hk]
    exact ⟨rfl, rfl⟩
  · intro cur hcur hdiff
    have hcond : cur.geoID ≠ geoID ∨ cur.name ≠ nm ∨
        cur.population ≠ population ∨ cur.continent ≠ continent := by
      by_contra hall
      push_neg at hall
      exact hdiff ⟨hall.1, hall.2.1, hall.2.2.1, hall.2.2.2⟩
    have hmem := ((currentCountry_spec db code).2 cur hcur).1
    have hid : cur.id < db.nextId := hwf.1 cur hmem
    rw [PutCountry_diff_eq db code geoID nm population continent cur hcur hcond]
    refine ⟨hid, rfl, rfl, ?_⟩
    exact currentCountry_append db
      ⟨db.nextId, code, geoID, nm, population, continent⟩
      (fun b hb => hwf.1 b hb)

/-- Witness for C4: the three branches exercised on a one-row store. -/
theorem put_country_scd2_witness :
    ((DB.PutCountry ⟨[], [], 1⟩ ("FRA") ("FR") ("France") 67000000
        ("Europe")).2.countries =
      [] ++ [(DB.PutCountry ⟨[], [], 1⟩ ("FRA") ("FR") ("France") 67000000
        ("Europe")).1]) ∧
    ((DB.PutCountry ⟨[⟨1, "FRA", "FR", "France", 67000000, "Europe"⟩], [], 2⟩
        ("FRA") ("FR") ("France") 67000000 ("Europe")).2 =
      ⟨[⟨1, "FRA", "FR", "France", 67000000, "Europe"⟩], [], 2⟩) ∧
    ((1 : Int) <
      (DB.PutCountry ⟨[⟨1, "FRA", "FR", "France", 67000000, "Europe"⟩], [], 2⟩
        ("FRA") ("FR") ("France") 67500000 ("Europe")).1.id) :=
  ⟨((put_country_scd2 ⟨[], [], 1⟩ ("FRA") ("FR") ("France") 67000000 ("Europe")
      (by decide)).1 (by decide)).2,
   ((put_country_scd2 ⟨[⟨1, "FRA", "FR", "France", 67000000, "Europe"⟩], [], 2⟩
      ("FRA") ("FR") ("France") 67000000 ("Europe") (by decide)).2.1
      ⟨1, "FRA", "FR", "France", 67000000, "Europe"⟩
      (by decide) (by decide) (by decide) (by decide) (by decide)).2,
   ((put_country_scd2 ⟨[⟨1, "FRA", "FR", "France", 67000000, "Europe"⟩], [], 2⟩
      ("FRA") ("FR") ("France") 67500000 ("Europe") (by decide)).2.2
      ⟨1, "FRA", "FR", "France", 67000000, "Europe"⟩
      (by decide) (by decide)).1⟩

/-! ### Watermark lemmas (`LastRecordDate`) -/

theorem foldl_max_init (l : List Int) : ∀ b : Int, b ≤ l.foldl max b := by
  induction l with
  | nil => intro b; simp
  | cons x l ih =>
    intro b
    rw [List.foldl_cons]
    exact le_trans (le_max_left b x) (ih (max b x))

theorem mem_le_foldl_max (l : List Int) :
    ∀ (b a : Int), a ∈ l → a ≤ l.foldl max b := by
  induction l with
  | nil => intro b a ha; simp at ha
  | cons x l ih =>
    intro b a ha
    rcases List.mem_cons.mp ha with rfl | ha'
    · rw [List.foldl_cons]
      exact le_trans (le_max_right b a) (foldl_max_init l (max b a))
    · rw [List.foldl_cons]
      exact ih (max b x) a ha'

theorem le_LastRecordDate_of_mem {db : DB} {code : String} {a : Int}
    (ha : a ∈ db.codeDates code) : a ≤ db.LastRecordDate code := by
  unfold DB.LastRecordDate
  cases hcd : db.codeDates code with
  | nil => rw [hcd] at ha; simp at ha
  | cons d ds =>
    rw [hcd] at ha
    rcases List.mem_cons.mp ha with rfl | ha'
    · exact foldl_max_init ds a
    · exact mem_le_foldl_max ds d a ha'

theorem mem_codeDates {db : DB} {code : String} {f : CaseFact} {c : Country}
    (hf : f ∈ db.cases) (hc : c ∈ db.countries)
    (hid : c.id = f.countryId) (hcode : c.code = code) :
    f.date ∈ db.codeDates code := by
  unfold DB.codeDates
  rw [List.mem_flatMap]
  refine ⟨f, hf, ?_⟩
  rw [List.mem_filterMap]
  refine ⟨c, hc, ?_⟩
  rw [if_pos ⟨hid, hcode⟩]

theorem LastRecordDate_eq_of_codeDates {db1 db2 : DB} {code : String}
    (h : db1.codeDates code = db2.codeDates code) :
    db1.LastRecordDate code = db2.LastRecordDate code := by
  unfold DB.LastRecordDate
  rw [h]

/-- `LastRecordDate` is the epoch sentinel for a code with no facts. -/
theorem LastRecordDate_sentinel {db : DB} {code : String}
    (h : db.codeDates code = []) : db.LastRecordDate code = 0 := by
  unfold DB.LastRecordDate
  rw [h]

theorem flatMap_congr_mem {α β : Type} {l : List α} {f g : α → List β}
    (h : ∀ a ∈ l, f a = g a) : l.flatMap f = l.flatMap g := by
  induction l with
  | nil => rfl
  | cons x l ih =>
    rw [List.flatMap_cons, List.flatMap_cons, h x (List.mem_cons_self x l),
      ih (fun a ha => h a (List.mem_cons_of_mem x ha))]

/-! ### `PutCountry` state lemmas -/

theorem PutCountry_state (db : DB) (code geoID nm : String)
    (population : Int) (continent : String) :
    (db.PutCountry code geoID nm population continent).2.cases = db.cases ∧
    (∃ tail, (db.PutCountry code geoID nm population continent).2.countries =
      db.countries ++ tail) ∧
    db.nextId ≤ (db.PutCountry code geoID nm population continent).2.nextId := by
  cases hcur : db.currentCountry code with
  | none =>
    rw [PutCountry_none_eq db code geoID nm population continent hcur]
    exact ⟨rfl, ⟨_, rfl⟩, by show db.nextId ≤ db.nextId + 1; omega⟩
  | some cur =>
    by_cases h4 : cur.geoID = geoID ∧ cur.name = nm ∧
        cur.population = population ∧ cur.continent = continent
    · rw [PutCountry_same_eq db code geoID nm population continent cur hcur
        h4.1 h4.2.1 h4.2.2.1 h4.2.2.2]
      exact ⟨rfl, ⟨[], by simp⟩, le_refl _⟩
    · have hcond : cur.geoID ≠ geoID ∨ cur.name ≠ nm ∨
          cur.population ≠ population ∨ cur.continent ≠ continent := by
        by_contra hq
        push_neg at hq
        exact h4 ⟨hq.1, hq.2.1, hq.2.2.1, hq.2.2.2⟩
      rw [PutCountry_diff_eq db code geoID nm population continent cur hcur hcond]
      exact ⟨rfl, ⟨_, rfl⟩, by show db.nextId ≤ db.nextId + 1; omega⟩

theorem WF_append_fresh (db : DB) (c : Country) (hid : c.id = db.nextId)
    (hwf : db.WF) :
    DB.WF ⟨db.countries ++ [c], db.cases, db.nextId + 1⟩ := by
  obtain ⟨h1, h2, h3⟩ := hwf
  refine ⟨?_, ?_, ?_⟩ <;> dsimp only
  · intro b hb
    rcases List.mem_append.mp hb with hb' | hb'
    · have := h1 b hb'
      omega
    · simp only [List.mem_singleton] at hb'
      subst hb'
      omega
  · rw [List.pairwise_append]
    refine ⟨h2, by simp, ?_⟩
    intro a ha b hb
    simp only [List.mem_singleton] at hb
    subst hb
    have := h1 a ha
    omega
  · intro f hf
    obtain ⟨c0, hc0, hc0id⟩ := h3 f hf
    exact ⟨c0, List.mem_append_left _ hc0, hc0id⟩

theorem codeDates_append_fresh (db : DB) (c : Country) (hid : c.id = db.nextId)
    (hwf : db.WF) (code' : String) :
    DB.codeDates ⟨db.countries ++ [c], db.cases, db.nextId + 1⟩ code' =
      db.codeDates code' := by
  unfold DB.codeDates
  apply flatMap_congr_mem
  intro f hf
  rw [List.filterMap_append]
  obtain ⟨c0, hc0, hc0id⟩ := hwf.2.2 f hf
  have hlt : c0.id < db.nextId := hwf.1 c0 hc0
  have hne : ¬(c.id = f.countryId ∧ c.code = code') := by
    rintro ⟨h, _⟩
    rw [hid] at h
    omega
  simp [hne]

theorem PutCountry_spec (db : DB) (code geoID nm : String)
    (population : Int) (continent : String) (hwf : db.WF) :
    (db.PutCountry code geoID nm population continent).1.code = code ∧
    (db.PutCountry code geoID nm population continent).2.WF ∧
    (db.PutCountry code geoID nm population continent).1 ∈
      (db.PutCountry code geoID nm population continent).2.countries ∧
    (∀ code', (db.PutCountry code geoID nm population continent).2.codeDates code' =
      db.codeDates code') := by
  cases hcur : db.currentCountry code with
  | none =>
    rw [PutCountry_none_eq db code geoID nm population continent hcur]
    exact ⟨rfl, WF_append_fresh db _ rfl hwf, by simp,
      fun code' => codeDates_append_fresh db _ rfl hwf code'⟩
  | some cur =>
    by_cases h4 : cur.geoID = geoID ∧ cur.name = nm ∧
        cur.population = population ∧ cur.continent = continent
    · rw [PutCountry_same_eq db code geoID nm population continent cur hcur
        h4.1 h4.2.1 h4.2.2.1 h4.2.2.2]
      exact ⟨((currentCountry_spec db code).2 cur hcur).2.1, hwf,
        ((currentCountry_spec db code).2 cur hcur).1, fun _ => rfl⟩
    · have hcond : cur.geoID ≠ geoID ∨ cur.name ≠ nm ∨
          cur.population ≠ population ∨ cur.continent ≠ continent := by
        by_contra hq
        push_neg at hq
        exact h4 ⟨hq.1, hq.2.1, hq.2.2.1, hq.2.2.2⟩
      rw [PutCountry_diff_eq db code geoID nm population continent cur hcur hcond]
      exact ⟨rfl, WF_append_fresh db _ rfl hwf, by simp,
        fun code' => codeDates_append_fresh db _ rfl hwf code'⟩

/-! ### Memo (`lastRecordTime`) lemmas -/

theorem cacheFind_mem : ∀ (cache : Cache) (code : String) (t : Int),
    cacheFind cache code = some t → (code, t) ∈ cache := by
  intro cache
  induction cache with
  | nil => intro code t h; simp [cacheFind] at h
  | cons p rest ih =>
    obtain ⟨p1, p2⟩ := p
    intro code t h
    simp only [cacheFind] at h
    by_cases hp : p1 = code
    · rw [if_pos hp] at h
      injection h with h
      subst hp
      subst h
      exact List.mem_cons_self _ _
    · rw [if_neg hp] at h
      exact List.mem_cons_of_mem _ (ih code t h)

theorem lastRecordTime_spec (db : DB) (cache : Cache) (code : String)
    (hc : CacheOK db cache) :
    (lastRecordTime db cache code).1 = db.LastRecordDate code ∧
    CacheOK db (lastRecordTime db cache code).2 := by
  unfold lastRecordTime
  cases hfind : cacheFind cache code with
  | none =>
    refine ⟨rfl, ?_⟩
    intro p hp
    rcases List.mem_cons.mp hp with rfl | hp'
    · rfl
    · exact hc p hp'
  | some t =>
    exact ⟨hc (code, t) (cacheFind_mem cache code t hfind), hc⟩

theorem CacheOK_of_eq {db db' : DB} {cache : Cache}
    (h : ∀ code, db'.LastRecordDate code = db.LastRecordDate code)
    (hc : CacheOK db cache) : CacheOK db' cache :=
  fun p hp => by rw [h p.1]; exact hc p hp

/-! ### Import loop step equations -/

theorem importLoop_nil (db : DB) (cache : Cache) :
    importLoop db cache [] = (.ok (cache, []), db) := rfl

theorem importLoop_cons_tserr (db : DB) (cache : Cache) (r : Record)
    (rest : List Record) (e : DbError) (hts : r.timestamp = .error e) :
    importLoop db cache (r :: rest) = (.error e, db) := by
  simp only [importLoop, hts]

theorem importLoop_cons_cumerr (db : DB) (cache : Cache) (r : Record)
    (rest : List Record) (ts : Int) (e : DbError)
    (hts : r.timestamp = .ok ts) (hcum : r.cumulative? = .error e) :
    importLoop db cache (r :: rest) = (.error e, db) := by
  simp only [importLoop, hts, hcum]

theorem importLoop_cons_skip (db : DB) (cache : Cache) (r : Record)
    (rest : List Record) (ts : Int) (cum : Rat)
    (hts : r.timestamp = .ok ts) (hcum : r.cumulative? = .ok cum)
    (hskip : ¬ (lastRecordTime db cache r.countryCode).1 < ts) :
    importLoop db cache (r :: rest) =
      importLoop db (lastRecordTime db cache r.countryCode).2 rest := by
  simp only [importLoop, hts, hcum, if_neg hskip]

theorem importLoop_cons_stage (db : DB) (cache : Cache) (r : Record)
    (rest : List Record) (ts : Int) (cum : Rat)
    (hts : r.timestamp = .ok ts) (hcum : r.cumulative? = .ok cum)
    (hadm : (lastRecordTime db cache r.countryCode).1 < ts) :
    importLoop db cache (r :: rest) =
      match importLoop
          (db.PutCountry r.countryCode r.geoID r.countryName
            r.population r.continent).2
          (lastRecordTime db cache r.countryCode).2 rest with
      | (.ok (cache', staged), db') =>
        (.ok (cache',
          { date := ts, cases := r.cases, deaths := r.deaths,
            cumulative := cum,
            country := (db.PutCountry r.countryCode r.geoID r.countryName
              r.population r.continent).1 } :: staged), db')
      | (.error e, db') => (.error e, db') := by
  simp only [importLoop, hts, hcum, if_pos hadm]

/-- Whatever the loop outcome, the `Cases` table is untouched and the
`Countries` table only grows by appended rows. -/
theorem importLoop_state : ∀ (records : List Record) (db : DB) (cache : Cache),
    (importLoop db cache records).2.cases = db.cases ∧
    (∃ tail, (importLoop db cache records).2.countries = db.countries ++ tail) := by
  intro records
  induction records with
  | nil => intro db cache; exact ⟨rfl, ⟨[], by simp [importLoop_nil]⟩⟩
  | cons r rest ih =>
    intro db cache
    cases hts : r.timestamp with
    | error e =>
      rw [importLoop_cons_tserr db cache r rest e hts]
      exact ⟨rfl, ⟨[], by simp⟩⟩
    | ok ts =>
      cases hcum : r.cumulative? with
      | error e =>
        rw [importLoop_cons_cumerr db cache r rest ts e hts hcum]
        exact ⟨rfl, ⟨[], by simp⟩⟩
      | ok cum =>
        by_cases hadm : (lastRecordTime db cache r.countryCode).1 < ts
        · rw [importLoop_cons_stage db cache r rest ts cum hts hcum hadm]
          obtain ⟨hpcC, ⟨tail1, hpcT⟩, _⟩ := PutCountry_state db r.countryCode
            r.geoID r.countryName r.population r.continent
          obtain ⟨hc, ⟨tail2, ht⟩⟩ := ih
            (db.PutCountry r.countryCode r.geoID r.countryName
              r.population r.continent).2
            (lastRecordTime db cache r.countryCode).2
          rcases hrec : importLoop
              (db.PutCountry r.countryCode r.geoID r.countryName
                r.population r.continent).2
              (lastRecordTime db cache r.countryCode).2 rest with ⟨res, db'⟩
          rw [hrec] at hc ht
          cases res with
          | ok pr =>
            obtain ⟨cache', staged⟩ := pr
            refine ⟨?_, ⟨tail1 ++ tail2, ?_⟩⟩
            · show db'.cases = db.cases
              rw [hc, hpcC]
            · show db'.countries = db.countries ++ (tail1 ++ tail2)
              rw [ht, hpcT, List.append_assoc]
          | error e =>
            refine ⟨?_, ⟨tail1 ++ tail2, ?_⟩⟩
            · show db'.cases = db.cases
              rw [hc, hpcC]
            · show db'.countries = db.countries ++ (tail1 ++ tail2)
              rw [ht, hpcT, List.append_assoc]
        · rw [importLoop_cons_skip db cache r rest ts cum hts hcum hadm]
          exact ih db (lastRecordTime db cache r.countryCode).2

/-! ### Record validity lemmas -/

theorem timestamp_error_val {r : Record} {e : DbError}
    (h : r.timestamp = .error e) : e = DbError.parseFailure := by
  unfold Record.timestamp at h
  rcases hday : parseUint32 r.day with _ | d <;>
    rcases hmon : parseUint32 r.month with _ | m <;>
    rcases hyear : parseUint32 r.year with _ | y <;>
    rw [hday, hmon, hyear] at h <;>
    first
      | (injection h with h; exact h.symm)
      | exact absurd h (by simp)

theorem cumulative_error_val {r : Record} {e : DbError}
    (h : r.cumulative? = .error e) : e = DbError.parseFailure := by
  unfold Record.cumulative? at h
  by_cases hlen : 0 < r.cumulativeCases.length
  · rw [if_pos hlen] at h
    rcases hp : parseFloat? r.cumulativeCases with _ | v
    · rw [hp] at h
      injection h with h
      exact h.symm
    · rw [hp] at h
      exact absurd h (by simp)
  · rw [if_neg hlen] at h
    exact absurd h (by simp)

theorem cumulative_ok_of_valid {r : Record} (hv : ValidRecord r) :
    ∃ cum, r.cumulative? = .ok cum := by
  rcases h : r.cumulative? with e | v
  · have := hv.2
    rw [h] at this
    simp [Except.isOk, Except.toBool] at this
  · exact ⟨v, rfl⟩

theorem not_valid_cases {r : Record} (hv : ¬ ValidRecord r) :
    (r.timestamp = .error DbError.parseFailure) ∨
    (∃ ts, r.timestamp = .ok ts ∧
      r.cumulative? = .error DbError.parseFailure) := by
  unfold ValidRecord at hv
  push_neg at hv
  rcases hts : r.timestamp with e | ts
  · left
    rw [timestamp_error_val hts]
  · right
    refine ⟨ts, rfl, ?_⟩
    have hcum : ¬ (r.cumulative?).isOk = true := by
      apply hv
      rw [hts]
      rfl
    rcases hc : r.cumulative? with e | v
    · rw [cumulative_error_val hc]
    · rw [hc] at hcum
      simp [Except.isOk, Except.toBool] at hcum

/-- Distinct surrogate ids identify rows. -/
theorem eq_of_mem_countries_id : ∀ {l : List Country},
    l.Pairwise (fun x y => x.id ≠ y.id) →
    ∀ a ∈ l, ∀ b ∈ l, a.id = b.id → a = b := by
  intro l hl
  induction hl with
  | nil => intro a ha; simp at ha
  | @cons x l hhead htail ih =>
    intro a ha b hb hid
    rcases List.mem_cons.mp ha with rfl | ha' <;>
      rcases List.mem_cons.mp hb with rfl | hb'
    · rfl
    · exact absurd hid (hhead b hb')
    · exact absurd hid.symm (hhead a ha')
    · exact ih a ha' b hb' hid

/-! ### Import loop: abort on an invalid record -/

theorem importLoop_invalid : ∀ (records : List Record) (db : DB) (cache : Cache),
    (∃ r ∈ records, ¬ ValidRecord r) →
    ∃ db', importLoop db cache records = (.error DbError.parseFailure, db') ∧
      db'.cases = db.cases := by
  intro records
  induction records with
  | nil =>
    intro db cache hex
    simp at hex
  | cons r rest ih =>
    intro db cache hex
    by_cases hvr : ValidRecord r
    · have hexrest : ∃ r' ∈ rest, ¬ ValidRecord r' := by
        obtain ⟨r', hr', hnv⟩ := hex
        rcases List.mem_cons.mp hr' with rfl | hr''
        · exact absurd hvr hnv
        · exact ⟨r', hr'', hnv⟩
      have hts := timestamp_of_valid hvr
      obtain ⟨cum, hcum⟩ := cumulative_ok_of_valid hvr
      by_cases hadm : (lastRecordTime db cache r.countryCode).1 < recordDate r
      · rw [importLoop_cons_stage db cache r rest (recordDate r) cum hts hcum hadm]
        obtain ⟨db', hloop, hcases⟩ := ih
          (db.PutCountry r.countryCode r.geoID r.countryName
            r.population r.continent).2
          (lastRecordTime db cache r.countryCode).2 hexrest
        rw [hloop]
        refine ⟨db', rfl, ?_⟩
        rw [hcases,
          (PutCountry_state db r.countryCode r.geoID r.countryName
            r.population r.continent).1]
      · rw [importLoop_cons_skip db cache r rest (recordDate r) cum hts hcum hadm]
        exact ih db (lastRecordTime db cache r.countryCode).2 hexrest
    · rcases not_valid_cases hvr with hts | ⟨ts, hts, hcum⟩
      · exact ⟨db, importLoop_cons_tserr db cache r rest _ hts, rfl⟩
      · exact ⟨db, importLoop_cons_cumerr db cache r rest ts _ hts hcum, rfl⟩

/-! ### Import loop: the incremental watermark filter -/

theorem importLoop_ok : ∀ (records : List Record) (db : DB) (cache : Cache),
    db.WF → CacheOK db cache → (∀ r ∈ records, ValidRecord r) →
    ∃ cache' staged db',
      importLoop db cache records = (.ok (cache', staged), db') ∧
      db'.WF ∧
      (∀ code, db'.codeDates code = db.codeDates code) ∧
      staged.map (fun s => (s.country.code, s.date)) =
        (records.filter (fun r => decide (Admits db r))).map
          (fun r => (r.countryCode, recordDate r)) ∧
      (∀ s ∈ staged, s.country ∈ db'.countries) := by
  intro records
  induction records with
  | nil =>
    intro db cache hwf hcache _
    exact ⟨cache, [], db, importLoop_nil db cache, hwf, fun _ => rfl, by simp,
      by simp⟩
  | cons r rest ih =>
    intro db cache hwf hcache hvalid
    have hvr : ValidRecord r := hvalid r (List.mem_cons_self r rest)
    have hvrest : ∀ r' ∈ rest, ValidRecord r' :=
      fun r' hr' => hvalid r' (List.mem_cons_of_mem r hr')
    have hts := timestamp_of_valid hvr
    obtain ⟨cum, hcum⟩ := cumulative_ok_of_valid hvr
    obtain ⟨hlr1, hlr2⟩ := lastRecordTime_spec db cache r.countryCode hcache
    by_cases hadm : Admits db r
    · have hadm' : (lastRecordTime db cache r.countryCode).1 < recordDate r := by
        rw [hlr1]
        exact hadm
      rw [importLoop_cons_stage db cache r rest (recordDate r) cum hts hcum hadm']
      obtain ⟨hPcode, hPwf, hPmem, hPdates⟩ := PutCountry_spec db r.countryCode
        r.geoID r.countryName r.population r.continent hwf
      obtain ⟨hPcases, ⟨tailP, hPcountries⟩, _⟩ := PutCountry_state db r.countryCode
        r.geoID r.countryName r.population r.continent
      have hLRD : ∀ code,
          (db.PutCountry r.countryCode r.geoID r.countryName
            r.population r.continent).2.LastRecordDate code =
          db.LastRecordDate code :=
        fun code => LastRecordDate_eq_of_codeDates (hPdates code)
      have hcache' : CacheOK
          (db.PutCountry r.countryCode r.geoID r.countryName
            r.population r.continent).2
          (lastRecordTime db cache r.countryCode).2 :=
        CacheOK_of_eq hLRD hlr2
      obtain ⟨cache0, staged0, db0, hloop, hwf0, hdates0, hmap0, hmem0⟩ :=
        ih (db.PutCountry r.countryCode r.geoID r.countryName
            r.population r.continent).2
          (lastRecordTime db cache r.countryCode).2 hPwf hcache' hvrest
      obtain ⟨_, ⟨tailL, hLc⟩⟩ := importLoop_state rest
        (db.PutCountry r.countryCode r.geoID r.countryName
          r.population r.continent).2
        (lastRecordTime db cache r.countryCode).2
      rw [hloop] at hLc
      rw [hloop]
      refine ⟨cache0,
        { date := recordDate r, cases := r.cases, deaths := r.deaths,
          cumulative := cum,
          country := (db.PutCountry r.countryCode r.geoID r.countryName
            r.population r.continent).1 } :: staged0,
        db0, rfl, hwf0, ?_, ?_, ?_⟩
      · intro code
        rw [hdates0 code, hPdates code]
      · rw [List.map_cons,
          List.filter_cons_of_pos (by exact decide_eq_true hadm), List.map_cons]
        have hfilter : rest.filter (fun x => decide (Admits
            (db.PutCountry r.countryCode r.geoID r.countryName
              r.population r.continent).2 x)) =
            rest.filter (fun x => decide (Admits db x)) :=
          List.filter_congr (fun x _ => decide_eq_decide.mpr (by
            unfold Admits
            rw [hLRD x.countryCode]))
        rw [hfilter] at hmap0
        rw [hmap0]
        congr 1
        rw [hPcode]
      · intro s hs
        rcases List.mem_cons.mp hs with rfl | hs'
        · show (db.PutCountry r.countryCode r.geoID r.countryName
            r.population r.continent).1 ∈ db0.countries
          rw [hLc]
          exact List.mem_append_left _ hPmem
        · exact hmem0 s hs'
    · have hskip : ¬ (lastRecordTime db cache r.countryCode).1 < recordDate r := by
        rw [hlr1]
        exact hadm
      rw [importLoop_cons_skip db cache r rest (recordDate r) cum hts hcum hskip]
      obtain ⟨cache0, staged0, db0, hloop, hwf0, hdates0, hmap0, hmem0⟩ :=
        ih db (lastRecordTime db cache r.countryCode).2 hwf hlr2 hvrest
      refine ⟨cache0, staged0, db0, hloop, hwf0, hdates0, ?_, hmem0⟩
      rw [List.filter_cons_of_neg (by simp [hadm])]
      exact hmap0

/-- A valid record's parsed date is a whole number of days in
seconds (local midnight). -/
theorem recordDate_mul {r : Record} (hv : ValidRecord r) :
    ∃ k : Int, recordDate r = 86400 * k := by
  have h1 := hv.1
  unfold Record.timestamp at h1
  rcases hday : parseUint32 r.day with _ | d <;>
    rcases hmon : parseUint32 r.month with _ | m <;>
    rcases hyear : parseUint32 r.year with _ | y <;>
    rw [hday, hmon, hyear] at h1 <;>
    first
      | simp [Except.isOk, Except.toBool] at h1
      | skip
  have hts : r.timestamp = .ok (mkDateSeconds (y : Int) (m : Int) (d : Int)) := by
    unfold Record.timestamp
    rw [hday, hmon, hyear]
  refine ⟨daysFromCivil (goNormMonth (y : Int) (m : Int)).1
    (goNormMonth (y : Int) (m : Int)).2 (d : Int), ?_⟩
  unfold recordDate
  rw [hts]
  rfl

theorem normalizeDate_recordDate {r : Record} (hv : ValidRecord r) :
    normalizeDate (recordDate r) = recordDate r := by
  obtain ⟨k, hk⟩ := recordDate_mul hv
  rw [hk]
  unfold normalizeDate
  have h2 : (86400 * k).ediv 86400 = k :=
    Int.mul_ediv_cancel_left k (by norm_num)
  rw [h2]

/-- A batch with pairwise-fresh keys that collide with nothing stored
raises no conflict. -/
theorem not_batchConflict :
    ∀ (staged : List CovidStatisticsRecord) (rows : List CaseFact),
      (∀ s ∈ staged, ∀ g ∈ rows,
        ¬(g.date = (toFact s).date ∧ g.countryId = (toFact s).countryId)) →
      staged.Pairwise (fun a b =>
        ¬((toFact a).date = (toFact b).date ∧
          (toFact a).countryId = (toFact b).countryId)) →
      ¬ BatchConflict rows staged := by
  intro staged
  induction staged with
  | nil => intro rows _ _ h; exact h
  | cons s rest ih =>
    intro rows hcross hpw hbc
    rcases hbc with hcol | hbc'
    · obtain ⟨g, hg, hkey⟩ := hcol
      exact hcross s (List.mem_cons_self s rest) g hg hkey
    · refine ih (rows ++ [toFact s]) ?_ (List.pairwise_cons.mp hpw).2 hbc'
      intro s' hs' g hg hkey
      rcases List.mem_append.mp hg with hg' | hg'
      · exact hcross s' (List.mem_cons_of_mem s hs') g hg' hkey
      · simp only [List.mem_singleton] at hg'
        subst hg'
        exact (List.pairwise_cons.mp hpw).1 s' hs' hkey

/-- When no record is admitted (every date is at or before its code's
watermark) the loop stages nothing and leaves the store untouched. -/
theorem importLoop_skip_all :
    ∀ (records : List Record) (db : DB) (cache : Cache),
      CacheOK db cache → (∀ r ∈ records, ValidRecord r) →
      (∀ r ∈ records, ¬ Admits db r) →
      ∃ cache', importLoop db cache records = (.ok (cache', []), db) := by
  intro records
  induction records with
  | nil => intro db cache _ _ _; exact ⟨cache, importLoop_nil db cache⟩
  | cons r rest ih =>
    intro db cache hcache hvalid hno
    have hvr : ValidRecord r := hvalid r (List.mem_cons_self r rest)
    have hts := timestamp_of_valid hvr
    obtain ⟨cum, hcum⟩ := cumulative_ok_of_valid hvr
    obtain ⟨hlr1, hlr2⟩ := lastRecordTime_spec db cache r.countryCode hcache
    have hskip : ¬ (lastRecordTime db cache r.countryCode).1 < recordDate r := by
      rw [hlr1]
      exact hno r (List.mem_cons_self r rest)
    rw [importLoop_cons_skip db cache r rest (recordDate r) cum hts hcum hskip]
    exact ih db (lastRecordTime db cache r.countryCode).2 hlr2
      (fun r' hr' => hvalid r' (List.mem_cons_of_mem r hr'))
      (fun r' hr' => hno r' (List.mem_cons_of_mem r hr'))

/-- C6 — Import validation aborts: if any source record's day, month
or year field fails to parse as a number, or its cumulative-incidence
field is non-empty and fails to parse as a real number, then the
entire call fails with a parse error and writes zero fact rows, while
an empty cumulative-incidence string is mapped to the value `0`
rather than an error. -/
theorem validation_aborts (db : DB) (records : List Record) :
    ((∃ r ∈ records, ¬ ValidRecord r) →
      (ecdcImport db records).1 = .error DbError.parseFailure ∧
      (ecdcImport db records).2.cases = db.cases) ∧
    (∀ r : Record, r.cumulativeCases = "" → r.cumulative? = .ok 0) := by
  constructor
  · intro hex
    obtain ⟨db', hloop, hcases⟩ := importLoop_invalid records db [] hex
    unfold ecdcImport
    rw [hloop]
    exact ⟨rfl, hcases⟩
  · intro r hemp
    unfold Record.cumulative?
    rw [hemp]
    rfl

/-- Witness for C6: a batch whose second record has a non-numeric day
aborts with zero rows written; an empty cumulative field parses to 0. -/
theorem validation_aborts_witness :
    ((ecdcImport ⟨[], [], 1⟩
        [⟨"2", "1", "2021", 7, 1, "Germany", "DE", "DEU", 83000000, "Europe", ""⟩,
         ⟨"x", "1", "2021", 1, 0, "Germany", "DE", "DEU", 83000000, "Europe", ""⟩]).1 =
      .error DbError.parseFailure ∧
     (ecdcImport ⟨[], [], 1⟩
        [⟨"2", "1", "2021", 7, 1, "Germany", "DE", "DEU", 83000000, "Europe", ""⟩,
         ⟨"x", "1", "2021", 1, 0, "Germany", "DE", "DEU", 83000000, "Europe", ""⟩]).2.cases =
      DB.cases ⟨[], [], 1⟩) ∧
    Record.cumulative?
      ⟨"3", "1", "2021", 9, 2, "Germany", "DE", "DEU", 83000000, "Europe", ""⟩ =
      .ok 0 :=
  ⟨(validation_aborts ⟨[], [], 1⟩
      [⟨"2", "1", "2021", 7, 1, "Germany", "DE", "DEU", 83000000, "Europe", ""⟩,
       ⟨"x", "1", "2021", 1, 0, "Germany", "DE", "DEU", 83000000, "Europe", ""⟩]).1
      (by decide),
   (validation_aborts ⟨[], [], 1⟩ []).2
      ⟨"3", "1", "2021", 9, 2, "Germany", "DE", "DEU", 83000000, "Europe", ""⟩ rfl⟩

/-- C9 — Non-transactional dimension side channel: when the record
loop succeeds but the final fact batch insert fails, the import call
returns the failed state as-is — every country version minted during
the loop stays persisted (the `Countries` table only grew), while the
fact batch itself is fully rolled back. -/
theorem dimension_side_channel (db : DB) (records : List Record)
    (cache' : Cache) (staged : List CovidStatisticsRecord) (dbMid : DB)
    (e : DbError)
    (hloop : importLoop db [] records = (.ok (cache', staged), dbMid))
    (hfail : (dbMid.ImportRecords staged).1 = .error e) :
    ecdcImport db records = (.error e, dbMid) ∧
    dbMid.cases = db.cases ∧
    (∃ minted, dbMid.countries = db.countries ++ minted) := by
  have hstate := importLoop_state records db []
  rw [hloop] at hstate
  rcases insertFactsLoop_spec staged dbMid.cases with ⟨hok, _⟩ | ⟨herr, _⟩
  · exfalso
    unfold DB.ImportRecords at hfail
    rw [hok] at hfail
    simp at hfail
  · have hIR : dbMid.ImportRecords staged = (.error DbError.conflict, dbMid) := by
      unfold DB.ImportRecords
      rw [herr]
    have he : e = DbError.conflict := by
      rw [hIR] at hfail
      injection hfail with h
      exact h.symm
    refine ⟨?_, hstate.1, hstate.2⟩
    unfold ecdcImport
    rw [hloop]
    dsimp only
    rw [he, hIR]

/-- Witness for C9: importing the same record twice in one batch
mints one country version, the fact batch insert then fails on the
duplicated `(date, countryId)` key, and the minted version survives. -/
theorem dimension_side_channel_witness :
    ecdcImport ⟨[], [], 1⟩
      [⟨"1", "1", "2021", 5, 1, "Germany", "DE", "DEU", 83000000, "Europe", ""⟩,
       ⟨"1", "1", "2021", 5, 1, "Germany", "DE", "DEU", 83000000, "Europe", ""⟩] =
      (.error DbError.conflict,
        ⟨[⟨1, "DEU", "DE", "Germany", 83000000, "Europe"⟩], [], 2⟩) ∧
    DB.cases ⟨[⟨1, "DEU", "DE", "Germany", 83000000, "Europe"⟩], [], 2⟩ =
      DB.cases ⟨[], [], 1⟩ ∧
    (∃ minted,
      DB.countries ⟨[⟨1, "DEU", "DE", "Germany", 83000000, "Europe"⟩], [], 2⟩ =
        DB.countries ⟨[], [], 1⟩ ++ minted) :=
  dimension_side_channel ⟨[], [], 1⟩
    [⟨"1", "1", "2021", 5, 1, "Germany", "DE", "DEU", 83000000, "Europe", ""⟩,
     ⟨"1", "1", "2021", 5, 1, "Germany", "DE", "DEU", 83000000, "Europe", ""⟩]
    [("DEU", 0)]
    [⟨1609459200, 5, 1, 0, ⟨1, "DEU", "DE", "Germany", 83000000, "Europe"⟩⟩,
     ⟨1609459200, 5, 1, 0, ⟨1, "DEU", "DE", "Germany", 83000000, "Europe"⟩⟩]
    ⟨[⟨1, "DEU", "DE", "Germany", 83000000, "Europe"⟩], [], 2⟩
    DbError.conflict (by decide) (by decide)

/-- C3 (amended) — Incremental watermark filter: for a batch of valid
records, a record is staged exactly when its parsed date is strictly
after the last known fact date for its country code, looked up once
per code and memoized for the import call; `LastRecordDate` of a code
with no stored facts is the epoch sentinel `0`, so a record of such a
code is admitted exactly when its date is strictly after the epoch
(a valid record dated at or before the epoch is skipped). -/
theorem watermark_filter (db : DB) (records : List Record)
    (hwf : db.WF) (hvalid : ∀ r ∈ records, ValidRecord r) :
    (∃ cache' staged db',
      importLoop db [] records = (.ok (cache', staged), db') ∧
      staged.map (fun s => (s.country.code, s.date)) =
        (records.filter (fun r => decide (Admits db r))).map
          (fun r => (r.countryCode, recordDate r))) ∧
    (∀ code, db.codeDates code = [] → db.LastRecordDate code = 0) := by
  refine ⟨?_, fun code h => LastRecordDate_sentinel h⟩
  obtain ⟨cache', staged, db', hloop, _, _, hmap, _⟩ :=
    importLoop_ok records db [] hwf (fun p hp => absurd hp (List.not_mem_nil p))
      hvalid
  exact ⟨cache', staged, db', hloop, hmap⟩

/-- Counterexample to C3 as stated: the record dated 1970-01-01 is
valid and its country code has no stored facts (the watermark is the
epoch sentinel), yet the import filters it out — the whole import
succeeds while writing zero fact rows, because its date equals the
sentinel instead of being strictly after it. -/
theorem watermark_filter_counterexample :
    ValidRecord
      ⟨"1", "1", "1970", 3, 1, "Germany", "DE", "DEU", 83000000, "Europe", ""⟩ ∧
    DB.codeDates ⟨[], [], 1⟩ ("DEU") = [] ∧
    DB.LastRecordDate ⟨[], [], 1⟩ ("DEU") = 0 ∧
    (ecdcImport ⟨[], [], 1⟩
      [⟨"1", "1", "1970", 3, 1, "Germany", "DE", "DEU", 83000000, "Europe", ""⟩]).1 =
      .ok () ∧
    (ecdcImport ⟨[], [], 1⟩
      [⟨"1", "1", "1970", 3, 1, "Germany", "DE", "DEU", 83000000, "Europe", ""⟩]).2.cases =
      [] := by
  decide

/-- Witness for the amended C3 on a store with one stored fact: the
already-known date is filtered out, the strictly newer date is staged. -/
theorem watermark_filter_witness :
    (∃ cache' staged db',
      importLoop ⟨[⟨1, "DEU", "DE", "Germany", 83000000, "Europe"⟩],
          [⟨1609459200, 1, 5, 1, 0⟩], 2⟩ []
        [⟨"1", "1", "2021", 5, 1, "Germany", "DE", "DEU", 83000000, "Europe", ""⟩,
         ⟨"2", "1", "2021", 7, 2, "Germany", "DE", "DEU", 83000000, "Europe", ""⟩] =
        (.ok (cache', staged), db') ∧
      staged.map (fun s => (s.country.code, s.date)) =
        ([⟨"1", "1", "2021", 5, 1, "Germany", "DE", "DEU", 83000000, "Europe", ""⟩,
          ⟨"2", "1", "2021", 7, 2, "Germany", "DE", "DEU", 83000000, "Europe", ""⟩].filter
            (fun r => decide (Admits ⟨[⟨1, "DEU", "DE", "Germany", 83000000, "Europe"⟩],
              [⟨1609459200, 1, 5, 1, 0⟩], 2⟩ r))).map
          (fun r => (r.countryCode, recordDate r))) ∧
    (∀ code,
      DB.codeDates ⟨[⟨1, "DEU", "DE", "Germany", 83000000, "Europe"⟩],
        [⟨1609459200, 1, 5, 1, 0⟩], 2⟩ code = [] →
      DB.LastRecordDate ⟨[⟨1, "DEU", "DE", "Germany", 83000000, "Europe"⟩],
        [⟨1609459200, 1, 5, 1, 0⟩], 2⟩ code = 0) :=
  watermark_filter
    ⟨[⟨1, "DEU", "DE", "Germany", 83000000, "Europe"⟩], [⟨1609459200, 1, 5, 1, 0⟩], 2⟩
    [⟨"1", "1", "2021", 5, 1, "Germany", "DE", "DEU", 83000000, "Europe", ""⟩,
     ⟨"2", "1", "2021", 7, 2, "Germany", "DE", "DEU", 83000000, "Europe", ""⟩]
    (by decide) (by decide)

/-! ### Query ordering -/

/-- A `≤`-sorted permutation of a strictly sorted list is that list. -/
theorem sorted_perm_eq_of_strict :
    ∀ (m l : List CovidStatisticsRecord), l.Perm m →
      l.Pairwise dateLE →
      m.Pairwise (fun a b => a.date < b.date) → l = m := by
  intro m
  induction m with
  | nil =>
    intro l hp _ _
    exact hp.eq_nil
  | cons x m ih =>
    intro l hp hsl hsm
    cases l with
    | nil =>
      have := hp.length_eq
      simp at this
    | cons y l' =>
      have hyx : y = x := by
        by_contra hne
        have hy_mem : y ∈ x :: m := hp.mem_iff.mp (List.mem_cons_self y l')
        have hx_mem : x ∈ y :: l' := hp.mem_iff.mpr (List.mem_cons_self x m)
        rcases List.mem_cons.mp hy_mem with h | hy'
        · exact hne h
        · rcases List.mem_cons.mp hx_mem with h | hx'
          · exact hne h.symm
          · have h1 : y.date ≤ x.date := (List.pairwise_cons.mp hsl).1 x hx'
            have h2 : x.date < y.date := (List.pairwise_cons.mp hsm).1 y hy'
            omega
      subst hyx
      rw [ih l' hp.cons_inv (List.pairwise_cons.mp hsl).2
        (List.pairwise_cons.mp hsm).2]

/-- C7 — Query ordering: when the join produces exactly three rows
with dates D1 < D2 < D3 — in whatever order the facts were stored —
the query streams them as results ordered D1, D2, D3. -/
theorem query_ordering (db : DB) (q : CountryQuery) (since : Int)
    (r1 r2 r3 : CovidStatisticsRecord)
    (hperm : (db.matchingRows q (normalizeDate since)).Perm [r1, r2, r3])
    (h12 : r1.date < r2.date) (h23 : r2.date < r3.date) :
    db.RetrieveRecordsSince q since =
      [CovidStatisticsRecordResult.result r1,
       CovidStatisticsRecordResult.result r2,
       CovidStatisticsRecordResult.result r3] := by
  have hsorted : (db.retrieveRows q since).Pairwise dateLE :=
    List.sorted_insertionSort dateLE (db.matchingRows q (normalizeDate since))
  have hperm' : (db.retrieveRows q since).Perm [r1, r2, r3] :=
    (List.perm_insertionSort dateLE
      (db.matchingRows q (normalizeDate since))).trans hperm
  have hsm : List.Pairwise
      (fun a b : CovidStatisticsRecord => a.date < b.date) [r1, r2, r3] := by
    refine List.Pairwise.cons ?_ (List.Pairwise.cons ?_ (List.pairwise_singleton _ _))
    · intro b hb
      rcases List.mem_cons.mp hb with rfl | hb'
      · exact h12
      · rcases List.mem_cons.mp hb' with rfl | hb''
        · exact lt_trans h12 h23
        · simp at hb''
    · intro b hb
      rcases List.mem_cons.mp hb with rfl | hb'
      · exact h23
      · simp at hb'
  have heq := sorted_perm_eq_of_strict [r1, r2, r3] (db.retrieveRows q since)
    hperm' hsorted hsm
  unfold DB.RetrieveRecordsSince
  rw [heq]
  rfl

/-- Witness for C7: three facts stored out of date order stream back
in ascending date order. -/
theorem query_ordering_witness :
    DB.RetrieveRecordsSince
      ⟨[⟨1, "DEU", "DE", "Germany", 83000000, "Europe"⟩],
       [⟨172800, 1, 20, 2, 0⟩, ⟨259200, 1, 30, 3, 0⟩, ⟨86400, 1, 10, 1, 0⟩], 2⟩
      (NewQuery ("DEU")) 0 =
      [CovidStatisticsRecordResult.result
        ⟨86400, 10, 1, 0, ⟨1, "DEU", "DE", "Germany", 83000000, "Europe"⟩⟩,
       CovidStatisticsRecordResult.result
        ⟨172800, 20, 2, 0, ⟨1, "DEU", "DE", "Germany", 83000000, "Europe"⟩⟩,
       CovidStatisticsRecordResult.result
        ⟨259200, 30, 3, 0, ⟨1, "DEU", "DE", "Germany", 83000000, "Europe"⟩⟩] :=
  query_ordering
    ⟨[⟨1, "DEU", "DE", "Germany", 83000000, "Europe"⟩],
     [⟨172800, 1, 20, 2, 0⟩, ⟨259200, 1, 30, 3, 0⟩, ⟨86400, 1, 10, 1, 0⟩], 2⟩
    (NewQuery ("DEU")) 0
    ⟨86400, 10, 1, 0, ⟨1, "DEU", "DE", "Germany", 83000000, "Europe"⟩⟩
    ⟨172800, 20, 2, 0, ⟨1, "DEU", "DE", "Germany", 83000000, "Europe"⟩⟩
    ⟨259200, 30, 3, 0, ⟨1, "DEU", "DE", "Germany", 83000000, "Europe"⟩⟩
    (by decide) (by decide) (by decide)

/-! ### Re-import idempotence -/

/-- C1 — Re-import idempotence: for a batch of valid records with
strictly increasing dates per country code, all strictly newer than
the store's per-code watermarks (an empty store included), the first
run succeeds and appends exactly one fact per record, and an
immediately repeated import of the same batch succeeds while changing
nothing — every record is filtered out by the watermark, so zero fact
rows are inserted the second time. -/
theorem reimport_idempotent (db : DB) (records : List Record)
    (hwf : db.WF)
    (hvalid : ∀ r ∈ records, ValidRecord r)
    (hinc : records.Pairwise (fun a b =>
      a.countryCode = b.countryCode → recordDate a < recordDate b))
    (hnew : ∀ r ∈ records, db.LastRecordDate r.countryCode < recordDate r) :
    (ecdcImport db records).1 = .ok () ∧
    (ecdcImport db records).2.cases.map CaseFact.date =
      db.cases.map CaseFact.date ++ records.map recordDate ∧
    (ecdcImport (ecdcImport db records).2 records).1 = .ok () ∧
    (ecdcImport (ecdcImport db records).2 records).2 =
      (ecdcImport db records).2 := by
  obtain ⟨cache', staged, db', hloop, hwf', hdates', hmap, hmemc⟩ :=
    importLoop_ok records db [] hwf (fun p hp => absurd hp (List.not_mem_nil p))
      hvalid
  obtain ⟨hcases', hcountries'⟩ := importLoop_state records db []
  rw [hloop] at hcases' hcountries'
  have hc' : db'.cases = db.cases := hcases'
  obtain ⟨tailC, htailC⟩ := hcountries'
  have htl : db'.countries = db.countries ++ tailC := htailC
  have hfilter : records.filter (fun r => decide (Admits db r)) = records :=
    List.filter_eq_self.mpr (fun r hr => decide_eq_true (hnew r hr))
  rw [hfilter] at hmap
  have hstagedPair : ∀ s ∈ staged, ∃ r ∈ records,
      s.country.code = r.countryCode ∧ s.date = recordDate r := by
    intro s hs
    have hmem : (s.country.code, s.date) ∈
        records.map (fun r => (r.countryCode, recordDate r)) := by
      rw [← hmap]
      exact List.mem_map_of_mem _ hs
    obtain ⟨r, hr, heq⟩ := List.mem_map.mp hmem
    have h1 := (Prod.mk.injEq _ _ _ _).mp heq
    exact ⟨r, hr, h1.1.symm, h1.2.symm⟩
  have hstagedNorm : ∀ s ∈ staged, (toFact s).date = s.date := by
    intro s hs
    obtain ⟨r, hr, _, hdate⟩ := hstagedPair s hs
    show normalizeDate s.date = s.date
    rw [hdate]
    exact normalizeDate_recordDate (hvalid r hr)
  have hpairsPW : staged.Pairwise (fun a b =>
      a.country.code = b.country.code → a.date < b.date) := by
    have h1 : (records.map (fun r => (r.countryCode, recordDate r))).Pairwise
        (fun p q : String × Int => p.1 = q.1 → p.2 < q.2) :=
      List.pairwise_map.mpr hinc
    rw [← hmap] at h1
    exact List.pairwise_map.mp h1
  have hback : ∀ s ∈ staged, ∀ g ∈ db.cases,
      ¬(g.date = (toFact s).date ∧ g.countryId = (toFact s).countryId) := by
    rintro s hs g hg ⟨hd, hcid⟩
    obtain ⟨c0, hc0, hc0id⟩ := hwf.2.2 g hg
    have hc0' : c0 ∈ db'.countries := by
      rw [htl]
      exact List.mem_append_left _ hc0
    have hsc : s.country ∈ db'.countries := hmemc s hs
    have hceq : c0 = s.country :=
      eq_of_mem_countries_id hwf'.2.1 c0 hc0' s.country hsc
        (by rw [hc0id, hcid]; rfl)
    obtain ⟨r, hr, hcode, hdate⟩ := hstagedPair s hs
    have hgd : g.date ≤ db.LastRecordDate r.countryCode :=
      le_LastRecordDate_of_mem (mem_codeDates hg hc0 hc0id
        (by rw [hceq, hcode]))
    have hlt := hnew r hr
    have hgs : g.date = recordDate r := by
      rw [hd, hstagedNorm s hs, hdate]
    omega
  have hpairKey : staged.Pairwise (fun a b =>
      ¬((toFact a).date = (toFact b).date ∧
        (toFact a).countryId = (toFact b).countryId)) := by
    refine List.Pairwise.imp_of_mem ?_ hpairsPW
    rintro a b ha hb hcd ⟨hd, hcid⟩
    have hab : a.country = b.country :=
      eq_of_mem_countries_id hwf'.2.1 a.country (hmemc a ha)
        b.country (hmemc b hb) hcid
    have hlt : a.date < b.date := hcd (by rw [hab])
    have heqd : a.date = b.date := by
      rw [← hstagedNorm a ha, ← hstagedNorm b hb]
      exact hd
    omega
  have hnc : ¬ BatchConflict db'.cases staged := by
    rw [hc']
    exact not_batchConflict staged db.cases hback hpairKey
  rcases insertFactsLoop_spec staged db'.cases with ⟨hok, _⟩ | ⟨_, hcf⟩
  · have hIR : db'.ImportRecords staged =
        (.ok (), ⟨db'.countries, db'.cases ++ staged.map toFact, db'.nextId⟩) := by
      unfold DB.ImportRecords
      rw [hok]
    have hImp : ecdcImport db records =
        (.ok (), ⟨db'.countries, db'.cases ++ staged.map toFact, db'.nextId⟩) := by
      unfold ecdcImport
      rw [hloop]
      dsimp only
      exact hIR
    set db1 : DB := ⟨db'.countries, db'.cases ++ staged.map toFact, db'.nextId⟩
    have hdates1 : staged.map (fun s => s.date) = records.map recordDate := by
      have hsnd := congrArg (List.map Prod.snd) hmap
      simpa [List.map_map] using hsnd
    have hconc2 : db1.cases.map CaseFact.date =
        db.cases.map CaseFact.date ++ records.map recordDate := by
      show (db'.cases ++ staged.map toFact).map CaseFact.date = _
      rw [List.map_append, hc']
      congr 1
      rw [List.map_map]
      have hpt : staged.map (CaseFact.date ∘ toFact) =
          staged.map (fun s => s.date) :=
        List.map_congr_left (fun s hs => hstagedNorm s hs)
      rw [hpt, hdates1]
    have hnoAdm : ∀ r ∈ records, ¬ Admits db1 r := by
      intro r hr hadm
      have hmem : (r.countryCode, recordDate r) ∈
          staged.map (fun s => (s.country.code, s.date)) := by
        rw [hmap]
        exact List.mem_map_of_mem _ hr
      obtain ⟨s, hs, heq⟩ := List.mem_map.mp hmem
      have h1 := (Prod.mk.injEq _ _ _ _).mp heq
      have hf : toFact s ∈ db1.cases :=
        List.mem_append_right _ (List.mem_map_of_mem toFact hs)
      have hcmem : s.country ∈ db1.countries := hmemc s hs
      have hdmem : (toFact s).date ∈ db1.codeDates r.countryCode :=
        mem_codeDates hf hcmem rfl h1.1
      have hle : (toFact s).date ≤ db1.LastRecordDate r.countryCode :=
        le_LastRecordDate_of_mem hdmem
      rw [hstagedNorm s hs, h1.2] at hle
      unfold Admits at hadm
      omega
    obtain ⟨cache2, hloop2⟩ := importLoop_skip_all records db1 []
      (fun p hp => absurd hp (List.not_mem_nil p)) hvalid hnoAdm
    have hImp2 : ecdcImport db1 records = (.ok (), db1) := by
      unfold ecdcImport
      rw [hloop2]
      rfl
    refine ⟨?_, ?_, ?_, ?_⟩
    · rw [hImp]
    · rw [hImp]
      exact hconc2
    · rw [hImp]
      dsimp only
      rw [hImp2]
    · rw [hImp]
      dsimp only
      rw [hImp2]
  · exact absurd hcf hnc

/-- Witness for C1: importing two fresh records into an empty store
inserts both; re-importing the same batch inserts nothing. -/
theorem reimport_idempotent_witness :
    (ecdcImport ⟨[], [], 1⟩
      [⟨"1", "1", "2021", 5, 1, "Germany", "DE", "DEU", 83000000, "Europe", ""⟩,
       ⟨"2", "1", "2021", 7, 2, "Germany", "DE", "DEU", 83000000, "Europe", ""⟩]).1 =
      .ok () ∧
    (ecdcImport ⟨[], [], 1⟩
      [⟨"1", "1", "2021", 5, 1, "Germany", "DE", "DEU", 83000000, "Europe", ""⟩,
       ⟨"2", "1", "2021", 7, 2, "Germany", "DE", "DEU", 83000000, "Europe", ""⟩]).2.cases.map
        CaseFact.date =
      (DB.cases ⟨[], [], 1⟩).map CaseFact.date ++
        [⟨"1", "1", "2021", 5, 1, "Germany", "DE", "DEU", 83000000, "Europe", ""⟩,
         ⟨"2", "1", "2021", 7, 2, "Germany", "DE", "DEU", 83000000, "Europe", ""⟩].map
          recordDate ∧
    (ecdcImport
      (ecdcImport ⟨[], [], 1⟩
        [⟨"1", "1", "2021", 5, 1, "Germany", "DE", "DEU", 83000000, "Europe", ""⟩,
         ⟨"2", "1", "2021", 7, 2, "Germany", "DE", "DEU", 83000000, "Europe", ""⟩]).2
      [⟨"1", "1", "2021", 5, 1, "Germany", "DE", "DEU", 83000000, "Europe", ""⟩,
       ⟨"2", "1", "2021", 7, 2, "Germany", "DE", "DEU", 83000000, "Europe", ""⟩]).1 =
      .ok () ∧
    (ecdcImport
      (ecdcImport ⟨[], [], 1⟩
        [⟨"1", "1", "2021", 5, 1, "Germany", "DE", "DEU", 83000000, "Europe", ""⟩,
         ⟨"2", "1", "2021", 7, 2, "Germany", "DE", "DEU", 83000000, "Europe", ""⟩]).2
      [⟨"1", "1", "2021", 5, 1, "Germany", "DE", "DEU", 83000000, "Europe", ""⟩,
       ⟨"2", "1", "2021", 7, 2, "Germany", "DE", "DEU", 83000000, "Europe", ""⟩]).2 =
    (ecdcImport ⟨[], [], 1⟩
      [⟨"1", "1", "2021", 5, 1, "Germany", "DE", "DEU", 83000000, "Europe", ""⟩,
       ⟨"2", "1", "2021", 7, 2, "Germany", "DE", "DEU", 83000000, "Europe", ""⟩]).2 :=
  reimport_idempotent ⟨[], [], 1⟩
    [⟨"1", "1", "2021", 5, 1, "Germany", "DE", "DEU", 83000000, "Europe", ""⟩,
     ⟨"2", "1", "2021", 7, 2, "Germany", "DE", "DEU", 83000000, "Europe", ""⟩]
    (by decide) (by decide) (by decide) (by decide)

end Covid
